import Mathlib

/-!
Verification of the in-memory message/array core of upb (src/core/upb_msg.h)
against its natural-language specification.

Modelling conventions (shallow embedding):
* A raw memory block (the bytes of an array's element buffer or of a
  message's data block) is a function `Nat → Nat`; each cell models one
  `uint8`, so readers reduce cells mod 256.
* A `upb_value` is modelled by the natural number obtained by reading the
  value's fixed-width little-endian byte representation.  For managed types
  (string/array/submessage) that number is the object pointer; the null
  pointer is 0.  In the C union, `v.refcount` is the pointer member of the
  value (the refcount sits at the head of every managed object), so
  "`v.refcount` is null" is modelled as `v = 0`.
* Reference counts of managed objects live in an ambient heap `UpbHeap`:
  `rc p` is the refcount of the object at pointer `p`, `next` is the next
  fresh pointer handed out by the allocator (every live pointer is < next),
  and `frees` counts how many times a destructor (`_upb_field_free`,
  `_upb_elem_free`, ...) has run.
* Schema metadata (`upb_fielddef`, `upb_msgdef`, the `upb_types` size
  table) is an external read-only collaborator; operations receive it as
  arguments, exactly as the C receives `f`/`md` and reads the global table.
-/

/-- Little-endian read of `n` bytes starting at offset `off` of memory `m`. -/
def readLE (m : Nat → Nat) : Nat → Nat → Nat
  | _, 0 => 0
  | off, n + 1 => m off % 256 + 256 * readLE m (off + 1) n

/-- Little-endian write of the `n`-byte value `v` at offset `off` of memory `m`. -/
def writeLE (m : Nat → Nat) (off v n : Nat) : Nat → Nat :=
  fun a => if off ≤ a ∧ a < off + n then v / 256 ^ (a - off) % 256 else m a

lemma lt_add_shift (off n a : Nat) (h : a < off + 1 + n) : a < off + (n + 1) := by
  rw [Nat.add_assoc, Nat.add_comm 1 n] at h
  exact h

lemma readLE_congr (m₁ m₂ : Nat → Nat) : ∀ (off n : Nat),
    (∀ a, off ≤ a → a < off + n → m₁ a = m₂ a) → readLE m₁ off n = readLE m₂ off n
  | _, 0, _ => rfl
  | off, n + 1, H => by
    have h0 : m₁ off = m₂ off := H off (Nat.le_refl off) (Nat.lt_add_of_pos_right (Nat.succ_pos n))
    have hr : readLE m₁ (off + 1) n = readLE m₂ (off + 1) n :=
      readLE_congr m₁ m₂ (off + 1) n fun a ha hb =>
        H a (Nat.le_of_succ_le ha) (lt_add_shift off n a hb)
    show m₁ off % 256 + 256 * readLE m₁ (off + 1) n
        = m₂ off % 256 + 256 * readLE m₂ (off + 1) n
    rw [h0, hr]

lemma writeLE_in (m : Nat → Nat) (off v n a : Nat) (h1 : off ≤ a) (h2 : a < off + n) :
    writeLE m off v n a = v / 256 ^ (a - off) % 256 :=
  if_pos ⟨h1, h2⟩

lemma writeLE_out (m : Nat → Nat) (off v n a : Nat) (h : a < off ∨ off + n ≤ a) :
    writeLE m off v n a = m a := by
  refine if_neg fun hc => ?_
  rcases h with h | h
  · exact Nat.lt_irrefl a (Nat.lt_of_lt_of_le h hc.1)
  · exact Nat.lt_irrefl a (Nat.lt_of_lt_of_le hc.2 h)

lemma writeLE_head (m : Nat → Nat) (off v n : Nat) :
    writeLE m off v (n + 1) off = v % 256 := by
  rw [writeLE_in m off v (n + 1) off (Nat.le_refl off) (Nat.lt_add_of_pos_right (Nat.succ_pos n)),
    Nat.sub_self, pow_zero, Nat.div_one]

lemma writeLE_tail (m : Nat → Nat) (off v n a : Nat) (h1 : off + 1 ≤ a) (h2 : a < off + 1 + n) :
    writeLE m off v (n + 1) a = writeLE m (off + 1) (v / 256) n a := by
  rw [writeLE_in m off v (n + 1) a (Nat.le_of_succ_le h1) (lt_add_shift off n a h2),
    writeLE_in m (off + 1) (v / 256) n a h1 h2, Nat.div_div_eq_div_mul]
  congr 2
  rw [← pow_succ']
  congr 1
  rw [← Nat.sub_sub]
  exact (Nat.succ_pred_eq_of_pos (Nat.sub_pos_of_lt h1)).symm

lemma readLE_writeLE : ∀ (n : Nat) (m : Nat → Nat) (off v : Nat),
    readLE (writeLE m off v n) off n = v % 256 ^ n
  | 0, _, _, v => by rw [pow_zero, Nat.mod_one]; rfl
  | n + 1, m, off, v => by
    show writeLE m off v (n + 1) off % 256 + 256 * readLE (writeLE m off v (n + 1)) (off + 1) n
        = v % 256 ^ (n + 1)
    rw [writeLE_head m off v n,
      readLE_congr (writeLE m off v (n + 1)) (writeLE m (off + 1) (v / 256) n) (off + 1) n
        (fun a ha hb => writeLE_tail m off v n a ha hb),
      readLE_writeLE n m (off + 1) (v / 256),
      Nat.mod_mod_of_dvd v (Nat.dvd_refl 256), pow_succ', Nat.mod_mul]

lemma readLE_writeLE_out (m : Nat → Nat) (off n off' n' v : Nat)
    (h : off' + n' ≤ off ∨ off + n ≤ off') :
    readLE (writeLE m off v n) off' n' = readLE m off' n' :=
  readLE_congr _ _ off' n' fun a ha hb =>
    writeLE_out m off v n a
      (h.imp (fun h1 => Nat.lt_of_lt_of_le hb h1) (fun h1 => Nat.le_trans h1 ha))

/-- Per-type entry of the external `upb_types` table (spec sect. 3: each type has a
fixed byte width). -/
structure upb_type_info where
  size : Nat

/-- External schema metadata for one field (`upb_fielddef`, from upb_def.h, outside
src): type tag, byte offset in the message data block, presence-bit index, default
value, the managed/unmanaged classification (`upb_field_ismm` / `upb_elem_ismm`),
and the element value type returned by `upb_elem_valuetype`. -/
structure upb_fielddef where
  type : Nat
  byte_offset : Nat
  field_index : Nat
  default_value : Nat
  field_ismm : Bool
  elem_ismm : Bool
  elem_value_type : Nat

/-- External schema metadata for one message type (`upb_msgdef`): number of bytes of
the presence bitset at the head of the data block. -/
structure upb_msgdef where
  set_flags_bytes : Nat

/-- Ambient refcount heap: `rc p` is the refcount stored at the head of the managed
object whose pointer is `p`; `next` is the next pointer the allocator will hand out
(all live pointers are below it, 0 is the null pointer); `frees` counts destructor
runs. -/
structure UpbHeap where
  rc : Nat → Nat
  next : Nat
  frees : Nat

/-- Modelled from the spec: the external fixed-width value read primitive
(`upb_value_read(p, type)`, spec sect. 4.1) — reads `upb_types[type].size` bytes at
offset `p`. -/
def upb_value_read (T : Nat → upb_type_info) (mem : Nat → Nat) (p : Nat) (type : Nat) : Nat :=
  readLE mem p (T type).size

/-- Modelled from the spec: the external fixed-width value write primitive
(`upb_value_write(p, val, type)`, spec sect. 4.1). -/
def upb_value_write (T : Nat → upb_type_info) (mem : Nat → Nat) (p val : Nat) (type : Nat) :
    Nat → Nat :=
  writeLE mem p val (T type).size

/-- upb_msg.h line 23: `_upb_value_ref(v) { upb_atomic_ref(v.refcount); }` — the
refcount pointer is dereferenced unconditionally; dereferencing the null pointer
(`v = 0`) is undefined behaviour, modelled as `none`. -/
def _upb_value_ref (v : Nat) (h : UpbHeap) : Option UpbHeap :=
  if v = 0 then none
  else some { h with rc := fun j => if j = v then h.rc v + 1 else h.rc j }

/-- Shared model of `upb_atomic_unref` plus free-on-zero: decrement the count at
`v`; when it was 1 the object's destructor runs (`frees` is bumped). -/
def rcRelease (h : UpbHeap) (v : Nat) : UpbHeap :=
  { h with rc := fun j => if j = v then h.rc v - 1 else h.rc j,
           frees := if h.rc v = 1 then h.frees + 1 else h.frees }

/-- upb_msg.h lines 27-31: `if (v.refcount && upb_atomic_unref(v.refcount))
_upb_field_free(v, f);` — guarded by a null check on the refcount pointer.  The
`assert(upb_field_ismm(f))` is a contract on callers, not a branch. -/
def _upb_field_unref (v : Nat) (f : upb_fielddef) (h : UpbHeap) : UpbHeap :=
  if v = 0 then h else rcRelease h v

/-- upb_msg.h lines 32-36: same shape as `_upb_field_unref`, calling
`_upb_elem_free` instead. -/
def _upb_elem_unref (v : Nat) (f : upb_fielddef) (h : UpbHeap) : UpbHeap :=
  if v = 0 then h else rcRelease h v

/-- upb_msg.h lines 41-46: `struct _upb_array` — refcount, length `len`, capacity
`size`, and the element byte buffer. -/
structure upb_array where
  refcount : Nat
  len : Nat
  size : Nat
  elements : Nat → Nat

/-- upb_msg.h lines 49-54: offset of element `elem`, namely
`elem * upb_types[f->type].size` bytes into the element buffer. -/
def _upb_array_getptr (T : Nat → upb_type_info) (a : upb_array) (f : upb_fielddef)
    (elem : Nat) : Nat :=
  elem * (T f.type).size

/-- upb_msg.h lines 62-64. -/
def upb_array_len (a : upb_array) : Nat :=
  a.len

/-- upb_msg.h lines 66-69: read element `elem` (asserts `elem < len`). -/
def upb_array_get (T : Nat → upb_type_info) (a : upb_array) (f : upb_fielddef)
    (elem : Nat) : Nat :=
  upb_value_read T a.elements (_upb_array_getptr T a f elem) f.type

/-- upb_msg.h lines 74-83: for managed element types, unref the old element and ref
the new value before writing; for unmanaged types, plain overwrite.  The call to
`_upb_value_ref` dereferences the value's refcount pointer, so the whole operation
is undefined (`none`) when a managed-type `val` is the null value. -/
def upb_array_set (T : Nat → upb_type_info) (a : upb_array) (f : upb_fielddef)
    (elem val : Nat) (h : UpbHeap) : Option (upb_array × UpbHeap) :=
  let p := _upb_array_getptr T a f elem
  if f.elem_ismm then
    let h1 := _upb_elem_unref (upb_value_read T a.elements p f.type) f h
    match _upb_value_ref val h1 with
    | none => none
    | some h2 => some ({ a with elements := upb_value_write T a.elements p val f.type }, h2)
  else
    some ({ a with elements := upb_value_write T a.elements p val f.type }, h)

/-- upb_msg.h lines 85-91, verbatim: `if (a->len == a->size) { a->len *= 2;
a->elements._void = realloc(..., a->len * upb_types[f->type].size); }`.  Note the
source doubles `len`, not `size`.  The model keeps the element buffer as an
unbounded function, so `realloc` preserves contents. -/
def upb_array_resize (a : upb_array) (f : upb_fielddef) : upb_array :=
  if a.len = a.size then { a with len := a.len * 2 } else a

/-- Modelled from the spec: the body of `upb_field_tryrecycle` is not under src
(only its declaration, upb_msg.h lines 20-21).  Spec sect. 4.4: when the current
value `v` of the slot is non-null and exclusively owned (refcount 1), it is reused
in place and returned unchanged; otherwise the previous reference is discarded with
a genuine release and a fresh default instance is allocated, stored in the slot,
and returned.  Returns (value, updated slot memory, updated heap). -/
def upb_field_tryrecycle (T : Nat → upb_type_info) (mem : Nat → Nat) (p v : Nat)
    (f : upb_fielddef) (type : Nat) (h : UpbHeap) : Nat × (Nat → Nat) × UpbHeap :=
  if v ≠ 0 ∧ h.rc v = 1 then
    (v, mem, h)
  else
    let h1 := _upb_field_unref v f h
    (h1.next, upb_value_write T mem p h1.next type,
      { rc := fun j => if j = h1.next then 1 else h1.rc j,
        next := h1.next + 1,
        frees := h1.frees })

/-- External accessor `upb_elem_valuetype(f)` (upb_def.h, outside src). -/
def upb_elem_valuetype (f : upb_fielddef) : Nat :=
  f.elem_value_type

/-- upb_msg.h lines 95-104: `upb_array_resize(a, f); p = getptr(a, f, a->len++);
type = upb_elem_valuetype(f); val = upb_value_read(p, type);
val = upb_field_tryrecycle(p, val, f, type); return val;`.
Returns (value, updated array, updated heap). -/
def upb_array_appendmutable (T : Nat → upb_type_info) (a : upb_array) (f : upb_fielddef)
    (h : UpbHeap) : Nat × upb_array × UpbHeap :=
  let a1 := upb_array_resize a f
  let p := _upb_array_getptr T a1 f a1.len
  let a2 : upb_array := { a1 with len := a1.len + 1 }
  let type := upb_elem_valuetype f
  let val := upb_value_read T a2.elements p type
  let r := upb_field_tryrecycle T a2.elements p val f type h
  (r.1, { a2 with elements := r.2.1 }, r.2.2)

/-- C1: the claim says `upb_array_resize` on an array with `len = size` doubles the
capacity, leaves the length unchanged, and preserves `len ≤ size`.  Evaluating the
source at an array with `len = size = 1` shows the code instead doubles the length
field `len` to 2 and leaves the capacity field `size` at 1, so the length changed
and `len ≤ size` is violated. -/
theorem upb_array_resize_bug :
    (upb_array_resize ⟨1, 1, 1, fun _ => 0⟩ ⟨0, 0, 0, 0, true, true, 0⟩).len = 2 ∧
    (upb_array_resize ⟨1, 1, 1, fun _ => 0⟩ ⟨0, 0, 0, 0, true, true, 0⟩).size = 1 ∧
    ¬ ((upb_array_resize ⟨1, 1, 1, fun _ => 0⟩ ⟨0, 0, 0, 0, true, true, 0⟩).len ≤
       (upb_array_resize ⟨1, 1, 1, fun _ => 0⟩ ⟨0, 0, 0, 0, true, true, 0⟩).size) ∧
    (upb_array_resize ⟨1, 1, 1, fun _ => 0⟩ ⟨0, 0, 0, 0, true, true, 0⟩).len ≠ 1 := by
  refine ⟨rfl, rfl, ?_, ?_⟩ <;> decide

/-- C2: the claim says one `upb_array_appendmutable` call increases the length by
exactly 1.  Evaluating the source on an array with `len = size = 1` (managed
element type, element width 4, heap allocator at `next = 5`): the buggy resize
first doubles `len` to 2, then the append increments it, so the length jumps from
1 to 3 instead of 2 (and the new element is written beyond the reallocated
buffer). -/
theorem upb_array_appendmutable_bug :
    (upb_array_appendmutable (fun _ => ⟨4⟩) ⟨1, 1, 1, fun _ => 0⟩
        ⟨0, 0, 0, 0, true, true, 0⟩ ⟨fun _ => 0, 5, 0⟩).2.1.len = 3 ∧
    (3 : Nat) ≠ 1 + 1 := by
  exact ⟨rfl, by decide⟩

/-- C8: behaviour of `upb_array_set` at a valid index.  For a managed element type
(given a usable new value `val`, i.e. one that actually carries a refcount) the old
element's reference is released, a reference is taken on `val`, `val` is stored and
the length and capacity are unchanged; for an unmanaged element type the slot is
plainly overwritten, the heap is returned untouched, and no byte outside the slot
changes. -/
theorem upb_array_set_spec (T : Nat → upb_type_info) (a : upb_array) (f : upb_fielddef)
    (elem val : Nat) (h : UpbHeap) (hlen : elem < upb_array_len a)
    (hval : val < 256 ^ (T f.type).size) :
    (f.elem_ismm = true → val ≠ 0 →
      ∀ old, upb_array_get T a f elem = old → old ≠ 0 → old ≠ val →
        ∃ a' h', upb_array_set T a f elem val h = some (a', h') ∧
          a'.len = a.len ∧ a'.size = a.size ∧
          h'.rc old = h.rc old - 1 ∧
          h'.rc val = h.rc val + 1 ∧
          upb_array_get T a' f elem = val) ∧
    (f.elem_ismm = false →
      ∃ a', upb_array_set T a f elem val h = some (a', h) ∧
        a'.len = a.len ∧ a'.size = a.size ∧
        upb_array_get T a' f elem = val ∧
        ∀ b, b < _upb_array_getptr T a f elem ∨
            _upb_array_getptr T a f elem + (T f.type).size ≤ b →
          a'.elements b = a.elements b) := by
  constructor
  · intro hmm hv old hold h0 hne
    have key : upb_array_set T a f elem val h =
        some ({ a with elements :=
                  upb_value_write T a.elements (_upb_array_getptr T a f elem) val f.type },
              { rcRelease h old with
                  rc := fun j => if j = val then (rcRelease h old).rc val + 1
                        else (rcRelease h old).rc j }) := by
      have hread : upb_value_read T a.elements (_upb_array_getptr T a f elem) f.type = old :=
        hold
      simp only [upb_array_set, hmm, if_true, hread, _upb_elem_unref, if_neg h0,
        _upb_value_ref, if_neg hv]
    refine ⟨_, _, key, rfl, rfl, ?_, ?_, ?_⟩
    · show (if old = val then (rcRelease h old).rc val + 1 else (rcRelease h old).rc old)
          = h.rc old - 1
      rw [if_neg hne]
      show (if old = old then h.rc old - 1 else h.rc old) = h.rc old - 1
      rw [if_pos rfl]
    · show (if val = val then (rcRelease h old).rc val + 1 else (rcRelease h old).rc val)
          = h.rc val + 1
      rw [if_pos rfl]
      show (if val = old then h.rc old - 1 else h.rc val) + 1 = h.rc val + 1
      rw [if_neg (Ne.symm hne)]
    · show upb_value_read T _ _ f.type = val
      simp only [upb_value_read, upb_value_write, _upb_array_getptr]
      rw [readLE_writeLE, Nat.mod_eq_of_lt hval]
  · intro hmm
    have key : upb_array_set T a f elem val h =
        some ({ a with elements :=
                  upb_value_write T a.elements (_upb_array_getptr T a f elem) val f.type }, h) := by
      simp only [upb_array_set, hmm, Bool.false_eq_true, if_false]
    refine ⟨_, key, rfl, rfl, ?_, ?_⟩
    · show upb_value_read T _ _ f.type = val
      simp only [upb_value_read, upb_value_write, _upb_array_getptr]
      rw [readLE_writeLE, Nat.mod_eq_of_lt hval]
    · intro b hb
      show upb_value_write T a.elements _ val f.type b = a.elements b
      simp only [upb_value_write, _upb_array_getptr] at hb ⊢
      exact writeLE_out _ _ _ _ _ hb

/-- Witness for C8, exercising both branches: a managed-type set at index 0 of an
array whose current element is the object 9 with refcount 2, storing object 5 with
refcount 1; and an unmanaged-type set at index 1. -/
theorem upb_array_set_spec_witness :
    (∃ a' h', upb_array_set (fun _ => ⟨2⟩) ⟨1, 1, 4, fun i => if i = 0 then 9 else 0⟩
        ⟨0, 0, 0, 0, true, true, 0⟩ 0 5 ⟨fun j => if j = 9 then 2 else if j = 5 then 1 else 0, 10, 0⟩
        = some (a', h') ∧
      a'.len = 1 ∧ a'.size = 4 ∧ h'.rc 9 = 2 - 1 ∧ h'.rc 5 = 1 + 1 ∧
      upb_array_get (fun _ => ⟨2⟩) a' ⟨0, 0, 0, 0, true, true, 0⟩ 0 = 5) ∧
    (∃ a', upb_array_set (fun _ => ⟨2⟩) ⟨1, 2, 4, fun _ => 0⟩
        ⟨0, 0, 0, 0, false, false, 0⟩ 1 7 ⟨fun _ => 0, 1, 0⟩
        = some (a', ⟨fun _ => 0, 1, 0⟩) ∧
      a'.len = 2 ∧ a'.size = 4 ∧
      upb_array_get (fun _ => ⟨2⟩) a' ⟨0, 0, 0, 0, false, false, 0⟩ 1 = 7 ∧
      ∀ b, b < 2 ∨ 2 + 2 ≤ b → a'.elements b = 0) := by
  constructor
  · exact (upb_array_set_spec (fun _ => ⟨2⟩) ⟨1, 1, 4, fun i => if i = 0 then 9 else 0⟩
      ⟨0, 0, 0, 0, true, true, 0⟩ 0 5 _ (by decide) (by decide)).1 rfl (by decide) 9 rfl
      (by decide) (by decide)
  · exact (upb_array_set_spec (fun _ => ⟨2⟩) ⟨1, 2, 4, fun _ => 0⟩
      ⟨0, 0, 0, 0, false, false, 0⟩ 1 7 _ (by decide) (by decide)).2 rfl

/-- C4: the recycling policy.  When the slot's current value `v` is non-null with
refcount 1, `upb_field_tryrecycle` hands back the identical object and touches
neither the slot nor the heap; when `v` is null or shared it hands back the freshly
allocated object `h.next` (distinct from `v`), whose refcount is 1, and — when
there was a previous reference — that reference has been genuinely released
(decremented), not merely overwritten. -/
theorem upb_field_tryrecycle_spec (T : Nat → upb_type_info) (mem : Nat → Nat) (p v : Nat)
    (f : upb_fielddef) (type : Nat) (h : UpbHeap) :
    (v ≠ 0 → h.rc v = 1 → upb_field_tryrecycle T mem p v f type h = (v, mem, h)) ∧
    ((v = 0 ∨ h.rc v ≠ 1) → v < h.next →
      (upb_field_tryrecycle T mem p v f type h).1 = h.next ∧
      (upb_field_tryrecycle T mem p v f type h).1 ≠ v ∧
      (upb_field_tryrecycle T mem p v f type h).2.2.rc h.next = 1 ∧
      (v ≠ 0 → (upb_field_tryrecycle T mem p v f type h).2.2.rc v = h.rc v - 1)) := by
  constructor
  · intro hv hrc
    simp only [upb_field_tryrecycle, if_pos (And.intro hv hrc)]
  · intro hcase hlt
    have hcond : ¬(v ≠ 0 ∧ h.rc v = 1) := fun hk =>
      hcase.elim (fun h1 => hk.1 h1) (fun h1 => h1 hk.2)
    have hnext : (_upb_field_unref v f h).next = h.next := by
      simp only [_upb_field_unref, rcRelease]
      split <;> rfl
    have key : upb_field_tryrecycle T mem p v f type h =
        ((_upb_field_unref v f h).next,
         upb_value_write T mem p (_upb_field_unref v f h).next type,
         { rc := fun j => if j = (_upb_field_unref v f h).next then 1
                  else (_upb_field_unref v f h).rc j,
           next := (_upb_field_unref v f h).next + 1,
           frees := (_upb_field_unref v f h).frees }) := by
      simp only [upb_field_tryrecycle, if_neg hcond]
    rw [key, hnext]
    refine ⟨rfl, Ne.symm (Nat.ne_of_lt hlt), ?_, ?_⟩
    · show (if h.next = h.next then 1 else (_upb_field_unref v f h).rc h.next) = 1
      rw [if_pos rfl]
    · intro hv
      show (if v = h.next then 1 else (_upb_field_unref v f h).rc v) = h.rc v - 1
      rw [if_neg (Nat.ne_of_lt hlt)]
      show (if v = 0 then h else rcRelease h v).rc v = h.rc v - 1
      rw [if_neg hv]
      show (if v = v then h.rc v - 1 else h.rc v) = h.rc v - 1
      rw [if_pos rfl]

/-- Witness for C4, exercising both branches: recycling the exclusively owned
object 3 (refcount 1), and replacing the shared object 4 (refcount 2) with the
fresh object 7. -/
theorem upb_field_tryrecycle_spec_witness :
    upb_field_tryrecycle (fun _ => ⟨4⟩) (fun _ => 0) 0 3 ⟨0, 0, 0, 0, true, true, 0⟩ 0
        ⟨fun j => if j = 3 then 1 else 0, 7, 0⟩
      = (3, fun _ => 0, ⟨fun j => if j = 3 then 1 else 0, 7, 0⟩) ∧
    (upb_field_tryrecycle (fun _ => ⟨4⟩) (fun _ => 0) 0 4 ⟨0, 0, 0, 0, true, true, 0⟩ 0
        ⟨fun j => if j = 4 then 2 else 0, 7, 0⟩).1 = 7 ∧
    (upb_field_tryrecycle (fun _ => ⟨4⟩) (fun _ => 0) 0 4 ⟨0, 0, 0, 0, true, true, 0⟩ 0
        ⟨fun j => if j = 4 then 2 else 0, 7, 0⟩).2.2.rc 4 = 2 - 1 := by
  refine ⟨?_, ?_, ?_⟩
  · exact (upb_field_tryrecycle_spec (fun _ => ⟨4⟩) (fun _ => 0) 0 3
      ⟨0, 0, 0, 0, true, true, 0⟩ 0 ⟨fun j => if j = 3 then 1 else 0, 7, 0⟩).1
      (by decide) (by decide)
  · exact ((upb_field_tryrecycle_spec (fun _ => ⟨4⟩) (fun _ => 0) 0 4
      ⟨0, 0, 0, 0, true, true, 0⟩ 0 ⟨fun j => if j = 4 then 2 else 0, 7, 0⟩).2
      (Or.inr (by decide)) (by decide)).1
  · exact ((upb_field_tryrecycle_spec (fun _ => ⟨4⟩) (fun _ => 0) 0 4
      ⟨0, 0, 0, 0, true, true, 0⟩ 0 ⟨fun j => if j = 4 then 2 else 0, 7, 0⟩).2
      (Or.inr (by decide)) (by decide)).2.2.2 (by decide)

/-- upb_msg.h lines 109-112: `struct _upb_msg` — refcount and the per-type data
block (presence bitset at the front, field bytes at the schema's byte offsets). -/
structure upb_msg where
  refcount : Nat
  data : Nat → Nat

/-- upb_msg.h lines 119-123: `&msg->data[f->byte_offset]`, i.e. the offset of the
field's bytes inside the data block. -/
def _upb_msg_getptr (msg : upb_msg) (f : upb_fielddef) : Nat :=
  f.byte_offset

/-- upb_msg.h lines 137-139:
`(msg->data[f->field_index/8] & (1 << (f->field_index % 8))) != 0`. -/
def upb_msg_has (msg : upb_msg) (f : upb_fielddef) : Bool :=
  (msg.data (f.field_index / 8) &&& (1 <<< (f.field_index % 8))) != 0

lemma upb_msg_has_eq_testBit (msg : upb_msg) (f : upb_fielddef) :
    upb_msg_has msg f
      = (msg.data (f.field_index / 8)).testBit (f.field_index % 8) := by
  unfold upb_msg_has
  rw [Nat.shiftLeft_eq, one_mul, Nat.and_two_pow]
  cases hb : (msg.data (f.field_index / 8)).testBit (f.field_index % 8) <;>
    simp [hb, Nat.pow_eq_zero]

/-- upb_msg.h lines 142-144: `memset(msg->data, 0, md->set_flags_bytes)`.  The
embedding passes the ambient refcount heap through the operation unchanged: the
code performs no reference-count operation and no free. -/
def upb_msg_clear (msg : upb_msg) (md : upb_msgdef) (h : UpbHeap) : upb_msg × UpbHeap :=
  ({ msg with data := fun i => if i < md.set_flags_bytes then 0 else msg.data i }, h)

/-- upb_msg.h lines 131-133: `if (msg && upb_atomic_unref(&msg->refcount))
_upb_msg_free(msg, md);`.  The nullable pointer is an `Option`; the returned `Bool`
records whether `_upb_msg_free` was invoked. -/
def upb_msg_unref (msg : Option upb_msg) (md : upb_msgdef) : Option upb_msg × Bool :=
  match msg with
  | none => (none, false)
  | some m =>
    if m.refcount = 1 then (none, true)
    else (some { m with refcount := m.refcount - 1 }, false)

/-- upb_msg.h lines 161-167: the set field is read at its byte offset with its
type; an unset field yields the schema default. -/
def upb_msg_get (T : Nat → upb_type_info) (msg : upb_msg) (f : upb_fielddef) : Nat :=
  if upb_msg_has msg f then upb_value_read T msg.data (_upb_msg_getptr msg f) f.type
  else f.default_value

/-- Modelled from the spec: `upb_msg_set` is declared at upb_msg.h line 177 but its
body is not under src.  Spec sect. 4.3: for managed field types, release the
reference currently occupying the field (if present) and take a reference on the
new value (spec sect. 4.1 addRef: a no-op for a value with no refcount), then write
the value and set the presence bit; for unmanaged types, write the scalar and set
the presence bit with no refcounting. -/
def upb_msg_set (T : Nat → upb_type_info) (msg : upb_msg) (f : upb_fielddef) (val : Nat)
    (h : UpbHeap) : upb_msg × UpbHeap :=
  let h1 :=
    if f.field_ismm then
      let h0 := if upb_msg_has msg f then
          _upb_field_unref (upb_value_read T msg.data (_upb_msg_getptr msg f) f.type) f h
        else h
      if val ≠ 0 then { h0 with rc := fun j => if j = val then h0.rc val + 1 else h0.rc j }
      else h0
    else h
  let d1 := upb_value_write T msg.data (_upb_msg_getptr msg f) val f.type
  ({ msg with data := fun i =>
      (if i = f.field_index / 8 then d1 i ||| (1 <<< (f.field_index % 8)) else d1 i) }, h1)

/-- C10: unref of a null message pointer is a no-op — the null check short-circuits
before the refcount is touched, so nothing is decremented and `_upb_msg_free` is
not called. -/
theorem upb_msg_unref_null (md : upb_msgdef) : upb_msg_unref none md = (none, false) :=
  rfl

/-- C3: `upb_msg_clear` zeroes the presence bitset — afterwards `upb_msg_has` is
false for every field whose presence bit lies inside the bitset region — and
changes nothing else: every data byte outside the first `set_flags_bytes` bytes
(in particular every field-data byte, since the schema lays field data after the
bitset) is untouched, the message refcount is untouched, and no reference held by
any object is released (the ambient heap is returned unchanged). -/
theorem upb_msg_clear_spec (msg : upb_msg) (md : upb_msgdef) (h : UpbHeap) :
    (∀ f : upb_fielddef, f.field_index / 8 < md.set_flags_bytes →
      upb_msg_has (upb_msg_clear msg md h).1 f = false) ∧
    (∀ a, md.set_flags_bytes ≤ a → (upb_msg_clear msg md h).1.data a = msg.data a) ∧
    (upb_msg_clear msg md h).1.refcount = msg.refcount ∧
    (upb_msg_clear msg md h).2 = h := by
  refine ⟨?_, ?_, rfl, rfl⟩
  · intro f hf
    rw [upb_msg_has_eq_testBit]
    show ((fun i => if i < md.set_flags_bytes then 0 else msg.data i)
        (f.field_index / 8)).testBit (f.field_index % 8) = false
    simp only [if_pos hf, Nat.zero_testBit]
  · intro a ha
    show (if a < md.set_flags_bytes then 0 else msg.data a) = msg.data a
    rw [if_neg (Nat.not_lt.mpr ha)]

/-- Witness for C3: a two-byte-bitset message with every bit set and nonzero field
bytes; after clear, field 0 reads absent, byte 3 is untouched, and the heap is
untouched. -/
theorem upb_msg_clear_spec_witness :
    upb_msg_has (upb_msg_clear ⟨1, fun i => if i < 4 then 255 else 0⟩ ⟨2⟩
        ⟨fun _ => 3, 9, 2⟩).1 ⟨0, 2, 0, 7, true, false, 0⟩ = false ∧
    (upb_msg_clear ⟨1, fun i => if i < 4 then 255 else 0⟩ ⟨2⟩
        ⟨fun _ => 3, 9, 2⟩).1.data 3 = (fun i => if i < 4 then (255 : Nat) else 0) 3 ∧
    (upb_msg_clear ⟨1, fun i => if i < 4 then 255 else 0⟩ ⟨2⟩
        ⟨fun _ => 3, 9, 2⟩).2 = ⟨fun _ => 3, 9, 2⟩ := by
  refine ⟨?_, ?_, ?_⟩
  · exact (upb_msg_clear_spec ⟨1, fun i => if i < 4 then 255 else 0⟩ ⟨2⟩
      ⟨fun _ => 3, 9, 2⟩).1 ⟨0, 2, 0, 7, true, false, 0⟩ (by decide)
  · exact (upb_msg_clear_spec ⟨1, fun i => if i < 4 then 255 else 0⟩ ⟨2⟩
      ⟨fun _ => 3, 9, 2⟩).2.1 3 (by decide)
  · exact (upb_msg_clear_spec ⟨1, fun i => if i < 4 then 255 else 0⟩ ⟨2⟩
      ⟨fun _ => 3, 9, 2⟩).2.2.2

/-- C7: `upb_msg_get` returns the little-endian value of the
`upb_types[f->type].size` bytes at the field's schema byte offset when the
presence bit is set, and the schema-declared default value when it is not. -/
theorem upb_msg_get_spec (T : Nat → upb_type_info) (msg : upb_msg) (f : upb_fielddef) :
    (upb_msg_has msg f = true →
      upb_msg_get T msg f = readLE msg.data f.byte_offset (T f.type).size) ∧
    (upb_msg_has msg f = false → upb_msg_get T msg f = f.default_value) := by
  constructor <;> intro hh <;>
    simp [upb_msg_get, upb_value_read, _upb_msg_getptr, hh]

/-- Witness for C7: a message whose presence bit 0 is set reads its two field
bytes at offset 1; a message with a clear bitset returns the default 7. -/
theorem upb_msg_get_spec_witness :
    upb_msg_get (fun _ => ⟨2⟩) ⟨1, fun i => if i = 0 then 1 else 42⟩
        ⟨0, 1, 0, 7, false, false, 0⟩
      = readLE (fun i => if i = 0 then 1 else 42) 1 2 ∧
    upb_msg_get (fun _ => ⟨2⟩) ⟨1, fun _ => 0⟩ ⟨0, 1, 0, 7, false, false, 0⟩ = 7 := by
  constructor
  · exact (upb_msg_get_spec (fun _ => ⟨2⟩) ⟨1, fun i => if i = 0 then 1 else 42⟩
      ⟨0, 1, 0, 7, false, false, 0⟩).1 (by decide)
  · exact (upb_msg_get_spec (fun _ => ⟨2⟩) ⟨1, fun _ => 0⟩
      ⟨0, 1, 0, 7, false, false, 0⟩).2 (by decide)

/-- C6: immediately after `upb_msg_set`, the presence bit is set (`upb_msg_has` is
true) and `upb_msg_get` returns exactly the value that was stored — the same word,
hence by value for scalars and by reference identity for managed types.  The
hypotheses are the schema layout contract: the field's presence-bit byte lies
outside the field's data bytes, and the value fits the field type's width. -/
theorem upb_msg_set_spec (T : Nat → upb_type_info) (msg : upb_msg) (f : upb_fielddef)
    (val : Nat) (h : UpbHeap)
    (hd : f.field_index / 8 < f.byte_offset ∨
          f.byte_offset + (T f.type).size ≤ f.field_index / 8)
    (hval : val < 256 ^ (T f.type).size) :
    upb_msg_has (upb_msg_set T msg f val h).1 f = true ∧
    upb_msg_get T (upb_msg_set T msg f val h).1 f = val := by
  have hbit : upb_msg_has (upb_msg_set T msg f val h).1 f = true := by
    rw [upb_msg_has_eq_testBit]
    show (if f.field_index / 8 = f.field_index / 8
        then upb_value_write T msg.data (_upb_msg_getptr msg f) val f.type (f.field_index / 8)
          ||| (1 <<< (f.field_index % 8))
        else upb_value_write T msg.data (_upb_msg_getptr msg f) val f.type
          (f.field_index / 8)).testBit (f.field_index % 8) = true
    rw [if_pos rfl, Nat.testBit_or, Nat.testBit_shiftLeft]
    simp
  refine ⟨hbit, ?_⟩
  rw [upb_msg_get, if_pos hbit]
  show readLE _ f.byte_offset (T f.type).size = val
  have hcongr : readLE ((upb_msg_set T msg f val h).1.data) f.byte_offset (T f.type).size
      = readLE (upb_value_write T msg.data (_upb_msg_getptr msg f) val f.type)
          f.byte_offset (T f.type).size := by
    apply readLE_congr
    intro b hb1 hb2
    show (if b = f.field_index / 8 then _ else _) = _
    refine if_neg fun hbe => ?_
    subst hbe
    rcases hd with hd | hd
    · exact Nat.lt_irrefl _ (Nat.lt_of_lt_of_le hd hb1)
    · exact Nat.lt_irrefl _ (Nat.lt_of_lt_of_le hb2 hd)
  rw [hcongr]
  show readLE (writeLE msg.data f.byte_offset val (T f.type).size)
      f.byte_offset (T f.type).size = val
  rw [readLE_writeLE, Nat.mod_eq_of_lt hval]

/-- Witness for C6: storing 300 in a two-byte scalar field at offset 1 of a
zeroed message makes the field present and readable back as 300. -/
theorem upb_msg_set_spec_witness :
    upb_msg_has (upb_msg_set (fun _ => ⟨2⟩) ⟨1, fun _ => 0⟩ ⟨0, 1, 0, 7, false, false, 0⟩
        300 ⟨fun _ => 0, 1, 0⟩).1 ⟨0, 1, 0, 7, false, false, 0⟩ = true ∧
    upb_msg_get (fun _ => ⟨2⟩) (upb_msg_set (fun _ => ⟨2⟩) ⟨1, fun _ => 0⟩
        ⟨0, 1, 0, 7, false, false, 0⟩ 300 ⟨fun _ => 0, 1, 0⟩).1
        ⟨0, 1, 0, 7, false, false, 0⟩ = 300 :=
  upb_msg_set_spec (fun _ => ⟨2⟩) ⟨1, fun _ => 0⟩ ⟨0, 1, 0, 7, false, false, 0⟩ 300
    ⟨fun _ => 0, 1, 0⟩ (Or.inl (by decide)) (by decide)

/-- One operation on a managed value's atomic reference count: `addRef` is
`_upb_value_ref` / `upb_atomic_ref`, `release` is `_upb_field_unref` /
`upb_array_unref` / `upb_msg_unref` (atomic decrement, destructor on the
transition to zero). -/
inductive RefOp where
  | addRef : RefOp
  | release : RefOp

/-- State of one refcounted object: its current count and the number of times its
destructor has run. -/
structure RCObj where
  count : Nat
  frees : Nat

/-- Semantics of one refcount operation, from upb_msg.h lines 23 and 27-36:
`addRef` increments; `release` decrements and runs the destructor exactly on the
transition from one to zero. -/
def refStep (s : RCObj) (op : RefOp) : RCObj :=
  match op with
  | RefOp.addRef => { s with count := s.count + 1 }
  | RefOp.release =>
    if s.count = 1 then { count := 0, frees := s.frees + 1 }
    else { s with count := s.count - 1 }

/-- Run a sequence of refcount operations. -/
def refRun (s : RCObj) (ops : List RefOp) : RCObj :=
  ops.foldl refStep s

def countAdds : List RefOp → Nat
  | [] => 0
  | RefOp.addRef :: t => countAdds t + 1
  | RefOp.release :: t => countAdds t

def countReleases : List RefOp → Nat
  | [] => 0
  | RefOp.addRef :: t => countReleases t
  | RefOp.release :: t => countReleases t + 1

/-- Validity of an interleaving started at count `c`: every operation acts on an
object that is still live (count at least 1 when the operation runs) — i.e.,
release is called at most once per held reference and nothing touches a freed
object. -/
def refValid : Nat → List RefOp → Bool
  | _, [] => true
  | c, RefOp.addRef :: t => decide (1 ≤ c) && refValid (c + 1) t
  | c, RefOp.release :: t => decide (1 ≤ c) && refValid (c - 1) t

lemma refRun_drain : ∀ (ops : List RefOp) (c φ : Nat), 1 ≤ c → refValid c ops = true →
    countReleases ops = c + countAdds ops →
    refRun ⟨c, φ⟩ ops = ⟨0, φ + 1⟩ ∧
    ∀ p q, ops = p ++ q → q ≠ [] → (refRun ⟨c, φ⟩ p).frees = φ
  | [], c, φ, hc, _, hcount => by
    have h0 : (0 : Nat) = c + 0 := hcount
    have hceq : c = 0 := (Nat.add_zero c).symm.trans h0.symm
    exact absurd hceq (Nat.pos_iff_ne_zero.mp hc)
  | RefOp.addRef :: t, c, φ, hc, hvalid, hcount => by
    have hv : refValid (c + 1) t = true := ((Bool.and_eq_true _ _).mp hvalid).2
    have hcount0 : countReleases t = c + (countAdds t + 1) := hcount
    have IH := refRun_drain t (c + 1) φ (Nat.le_succ_of_le hc)
      hv (hcount0.trans ((Nat.add_succ c (countAdds t)).trans
        (Nat.succ_add c (countAdds t)).symm))
    refine ⟨IH.1, ?_⟩
    intro p q hpq hq
    cases p with
    | nil => rfl
    | cons x p' =>
      simp only [List.cons_append] at hpq
      injection hpq with hx ht
      subst hx
      exact IH.2 p' q ht hq
  | RefOp.release :: t, c, φ, hc, hvalid, hcount => by
    have hv : refValid (c - 1) t = true := ((Bool.and_eq_true _ _).mp hvalid).2
    have hcount0 : countReleases t + 1 = c + countAdds t := hcount
    by_cases hc1 : c = 1
    · subst hc1
      have ht : t = [] := by
        cases t with
        | nil => rfl
        | cons y t' => cases y <;> exact Bool.noConfusion hv
      subst ht
      refine ⟨rfl, ?_⟩
      intro p q hpq hq
      cases p with
      | nil => rfl
      | cons x p' =>
        simp only [List.cons_append] at hpq
        injection hpq with hx ht'
        exact absurd (List.append_eq_nil.mp ht'.symm).2 hq
    · have hstep : refStep ⟨c, φ⟩ RefOp.release = ⟨c - 1, φ⟩ := if_neg hc1
      have hc2 : c - 1 + 1 = c :=
        Nat.succ_pred_eq_of_pos (Nat.lt_of_lt_of_le Nat.zero_lt_one hc)
      have hcnt : countReleases t = c - 1 + countAdds t := by
        rw [← hc2, Nat.succ_add] at hcount0
        exact Nat.add_right_cancel hcount0
      have IH := refRun_drain t (c - 1) φ
        (Nat.le_pred_of_lt (Nat.lt_of_le_of_ne hc (Ne.symm hc1))) hv hcnt
      refine ⟨?_, ?_⟩
      · show refRun (refStep ⟨c, φ⟩ RefOp.release) t = ⟨0, φ + 1⟩
        rw [hstep]
        exact IH.1
      · intro p q hpq hq
        cases p with
        | nil => rfl
        | cons x p' =>
          simp only [List.cons_append] at hpq
          injection hpq with hx ht
          subst hx
          show (refRun (refStep ⟨c, φ⟩ RefOp.release) p').frees = φ
          rw [hstep]
          exact IH.2 p' q ht hq

/-- C5 counterexample: the claim as stated — `n` addRefs and `n` releases free the
value exactly once — is false on the code, because a managed value starts life with
refcount 1 from its creation.  With `n = 1` the valid interleaving
addRef-then-release leaves the count back at 1 and the destructor has run zero
times, not once. -/
theorem upb_refcount_claim_counterexample :
    countAdds [RefOp.addRef, RefOp.release] = 1 ∧
    countReleases [RefOp.addRef, RefOp.release] = 1 ∧
    refValid 1 [RefOp.addRef, RefOp.release] = true ∧
    (refRun ⟨1, 0⟩ [RefOp.addRef, RefOp.release]).frees = 0 ∧
    (refRun ⟨1, 0⟩ [RefOp.addRef, RefOp.release]).count = 1 :=
  ⟨rfl, rfl, rfl, rfl, rfl⟩

/-- C5 (amended): a managed value is created with refcount 1; after `n` addRefs
and `n + 1` releases (the extra release dropping the creation reference), in any
valid interleaving, the destructor runs exactly once, at the final release, which
takes the count from one to zero — and never earlier (every proper prefix of the
interleaving has performed zero destructor runs). -/
theorem upb_refcount_lifecycle (n : Nat) (ops : List RefOp)
    (hA : countAdds ops = n) (hR : countReleases ops = n + 1)
    (hV : refValid 1 ops = true) :
    refRun ⟨1, 0⟩ ops = ⟨0, 1⟩ ∧
    ∀ p q, ops = p ++ q → q ≠ [] → (refRun ⟨1, 0⟩ p).frees = 0 :=
  refRun_drain ops 1 0 (Nat.le_refl 1) hV (by rw [hR, ← hA, Nat.add_comm])

/-- Witness for C5 (amended) at `n = 1`: addRef, release, release frees exactly
once, and the one-step and two-step prefixes have freed nothing. -/
theorem upb_refcount_lifecycle_witness :
    refRun ⟨1, 0⟩ [RefOp.addRef, RefOp.release, RefOp.release] = ⟨0, 1⟩ ∧
    (refRun ⟨1, 0⟩ [RefOp.addRef, RefOp.release]).frees = 0 := by
  have H := upb_refcount_lifecycle 1 [RefOp.addRef, RefOp.release, RefOp.release]
    rfl rfl rfl
  exact ⟨H.1, H.2 [RefOp.addRef, RefOp.release] [RefOp.release] rfl (by simp)⟩

/-- C9 counterexample: the claim says `_upb_value_ref` is a no-op on a value with
no refcount, but the source dereferences `v.refcount` unconditionally — on the
null value the call is a crash (undefined behaviour), not a no-op returning the
heap unchanged. -/
theorem upb_value_ref_unguarded :
    _upb_value_ref 0 ⟨fun _ => 1, 1, 0⟩ ≠ some ⟨fun _ => 1, 1, 0⟩ := by
  simp [_upb_value_ref]

/-- C9 (amended): `_upb_value_ref` increments the backing refcount of a value that
carries one (leaving every other count, the allocator and the destructor tally
untouched); for a value with no refcount it is not a no-op — it dereferences the
null refcount pointer, so callers must only pass values that carry a refcount. -/
theorem upb_value_ref_spec (v : Nat) (h : UpbHeap) (hv : v ≠ 0) :
    ∃ h', _upb_value_ref v h = some h' ∧ h'.rc v = h.rc v + 1 ∧
      (∀ j, j ≠ v → h'.rc j = h.rc j) ∧ h'.frees = h.frees ∧ h'.next = h.next := by
  refine ⟨{ h with rc := fun j => if j = v then h.rc v + 1 else h.rc j }, ?_, ?_, ?_, rfl, rfl⟩
  · simp only [_upb_value_ref, if_neg hv]
  · simp
  · intro j hj
    simp [hj]

/-- Witness for C9 (amended): taking a reference on the object 2 in a heap where
every count is 3 yields count 4 for object 2 and count 3 elsewhere. -/
theorem upb_value_ref_spec_witness :
    ∃ h', _upb_value_ref 2 ⟨fun _ => 3, 4, 5⟩ = some h' ∧ h'.rc 2 = 3 + 1 ∧
      (∀ j, j ≠ 2 → h'.rc j = 3) ∧ h'.frees = 5 ∧ h'.next = 4 :=
  upb_value_ref_spec 2 ⟨fun _ => 3, 4, 5⟩ (by decide)
